import Mathlib

/- Verification of the portfolio optimization and risk-analytics engine
(`src/models/portfolio_optimizer.py`, class `PortfolioOptimizer`).

Two shallow embeddings are used:

* a real-valued model (`colMean`, `sampleCov`, `calculate_portfolio_metrics`,
  `calculate_sharpe_ratio`, `optimize_sharpe`, `optimize_min_volatility`) for
  the statistics and the two `scipy.optimize.minimize`-backed operations.
  `scipy.optimize.minimize` belongs to an external library, so its outcome is
  passed in explicitly as a `SolverOutcome` value: `SolverOutcome.failure`
  models `result.success == False`, `SolverOutcome.success w` models
  convergence to the point `w`;

* an exact-rational model (`calculate_returns`, `portfolio_returns`,
  `percentile`, `calculate_var`, `diversification_score`, `linspace`,
  `target_returns`, `efficient_frontier`) for the analytics whose claims need
  concrete evaluation.  Python floats are modelled by exact rationals;
  `round(x, k)` (banker's rounding) is modelled by `bankersRound`. -/

noncomputable section

/-- Column mean of the return matrix: `returns.mean()` (pandas, divisor `T`). -/
def colMean {T n : ℕ} (R : Fin T → Fin n → ℝ) (j : Fin n) : ℝ :=
  (∑ t, R t j) / (T : ℝ)

/-- Sample covariance of two columns: `returns.cov()` (pandas, `ddof = 1`,
divisor `T - 1`). -/
def sampleCov {T n : ℕ} (R : Fin T → Fin n → ℝ) (i j : Fin n) : ℝ :=
  (∑ t, (R t i - colMean R i) * (R t j - colMean R j)) / ((T : ℝ) - 1)

/-- `PortfolioOptimizer.calculate_portfolio_metrics`: the pair
`(np.sum(returns.mean() * weights) * 252,
  sqrt(weights @ ((returns.cov() * 252) @ weights)))`. -/
def calculate_portfolio_metrics {T n : ℕ} (weights : Fin n → ℝ)
    (R : Fin T → Fin n → ℝ) : ℝ × ℝ :=
  ((∑ j, colMean R j * weights j) * 252,
   Real.sqrt (∑ i, weights i * (∑ j, (sampleCov R i j * 252) * weights j)))

/-- `PortfolioOptimizer.calculate_sharpe_ratio`: the quotient is formed with no
guard on a zero denominator (`self.risk_free_rate` is the `rf` argument). -/
def calculate_sharpe_ratio {T n : ℕ} (rf : ℝ) (weights : Fin n → ℝ)
    (R : Fin T → Fin n → ℝ) : ℝ :=
  ((calculate_portfolio_metrics weights R).1 - rf) /
    (calculate_portfolio_metrics weights R).2

/-- Objective of `optimize_min_volatility`: `calculate_portfolio_metrics(...)[1]`. -/
def portfolio_volatility {T n : ℕ} (R : Fin T → Fin n → ℝ)
    (weights : Fin n → ℝ) : ℝ :=
  (calculate_portfolio_metrics weights R).2

/-- The initial guess of both optimizers: `np.array([1/n_assets] * n_assets)`. -/
def equal_weights (n : ℕ) : Fin n → ℝ := fun _ => 1 / (n : ℝ)

/-- Feasible set of both optimizers: `sum(w) = 1` and bounds `0 ≤ w i ≤ 1`. -/
def feasible {n : ℕ} (w : Fin n → ℝ) : Prop :=
  (∑ i, w i) = 1 ∧ ∀ i, 0 ≤ w i ∧ w i ≤ 1

/-- Result dictionary of the two optimizers.  The failure branch of the source
only sets `success` and `message`; the numeric fields then keep the default 0. -/
structure OptResult (n : ℕ) where
  success : Bool
  weights : Fin n → ℝ
  expected_return : ℝ
  volatility : ℝ
  sharpe_ratio : ℝ
  message : String

/-- Outcome of the external `scipy.optimize.minimize` call: either convergence
to a point `w` (`result.success == True`, `result.x == w`) or non-convergence. -/
inductive SolverOutcome (n : ℕ) where
  | success (w : Fin n → ℝ)
  | failure

/-- Python `round(x, p)` (banker's rounding at ties), on the reals. -/
def bankersRoundR (x : ℝ) : ℤ :=
  if x - ⌊x⌋ = 1 / 2 then (if ⌊x⌋ % 2 = 0 then ⌊x⌋ else ⌊x⌋ + 1) else round x

/-- Round to `p` decimal places, as the source's `round(x, p)`. -/
def roundToR (p : ℕ) (x : ℝ) : ℝ :=
  (bankersRoundR (x * 10 ^ p) : ℝ) / 10 ^ p

/-- `PortfolioOptimizer.optimize_sharpe`, with the solver outcome explicit.
Non-convergence returns `{'success': False, 'message': 'Optimization failed'}`
— no exception is raised on that path. -/
def optimize_sharpe {T n : ℕ} (outcome : SolverOutcome n)
    (R : Fin T → Fin n → ℝ) (rf : ℝ) : OptResult n :=
  match outcome with
  | .success w =>
    { success := true
      weights := w
      expected_return := roundToR 2 ((calculate_portfolio_metrics w R).1 * 100)
      volatility := roundToR 2 ((calculate_portfolio_metrics w R).2 * 100)
      sharpe_ratio := roundToR 3 (calculate_sharpe_ratio rf w R)
      message := "" }
  | .failure =>
    { success := false
      weights := fun _ => 0
      expected_return := 0
      volatility := 0
      sharpe_ratio := 0
      message := "Optimization failed" }

/-- `PortfolioOptimizer.optimize_min_volatility`, with the solver outcome
explicit; the result dictionary is built exactly as in `optimize_sharpe`. -/
def optimize_min_volatility {T n : ℕ} (outcome : SolverOutcome n)
    (R : Fin T → Fin n → ℝ) (rf : ℝ) : OptResult n :=
  match outcome with
  | .success w =>
    { success := true
      weights := w
      expected_return := roundToR 2 ((calculate_portfolio_metrics w R).1 * 100)
      volatility := roundToR 2 ((calculate_portfolio_metrics w R).2 * 100)
      sharpe_ratio := roundToR 3 (calculate_sharpe_ratio rf w R)
      message := "" }
  | .failure =>
    { success := false
      weights := fun _ => 0
      expected_return := 0
      volatility := 0
      sharpe_ratio := 0
      message := "Optimization failed" }

end

/- Exact-rational model of the analytics.  A return matrix is a list of rows
(one row per period, one entry per asset); a weight vector is a list in the
same asset order. -/

/-- `PortfolioOptimizer.calculate_returns`: `prices.pct_change().dropna()`.
Each consecutive pair of rows yields the row `cur / prev - 1`; the first
(all-NaN) row is dropped.  Total: one price row yields the empty matrix. -/
def calculate_returns (prices : List (List ℚ)) : List (List ℚ) :=
  (prices.zip prices.tail).map fun pr =>
    List.zipWith (fun prev cur => cur / prev - 1) pr.1 pr.2

/-- Per-period portfolio returns: `(returns * weights).sum(axis=1)`. -/
def portfolio_returns (R : List (List ℚ)) (weights : List ℚ) : List ℚ :=
  R.map fun row => (List.zipWith (· * ·) row weights).sum

/-- Linear-interpolation value at fractional position `h` of a sorted list
(`numpy.percentile`'s default interpolation between order statistics). -/
def interpAt (s : List ℚ) (h : ℚ) : ℚ :=
  let i := (⌊h⌋).toNat
  let lo := s.getD i 0
  let hi := s.getD (i + 1) lo
  lo + (h - (i : ℚ)) * (hi - lo)

/-- `np.percentile(xs, q)` with the default linear interpolation: sort, then
interpolate at position `h = q/100 * (len - 1)`. -/
def percentile (xs : List ℚ) (q : ℚ) : ℚ :=
  interpAt (List.insertionSort (· ≤ ·) xs) (q / 100 * ((xs.length : ℚ) - 1))

/-- `PortfolioOptimizer.calculate_var`:
`abs(np.percentile(portfolio_returns, (1 - confidence) * 100) * portfolio_value)`. -/
def calculate_var (R : List (List ℚ)) (weights : List ℚ) (confidence : ℚ)
    (portfolio_value : ℚ) : ℚ :=
  |percentile (portfolio_returns R weights) ((1 - confidence) * 100) *
    portfolio_value|

/-- Python `round(x)` on the rationals: banker's rounding at ties. -/
def bankersRound (x : ℚ) : ℤ :=
  if x - ⌊x⌋ = 1 / 2 then (if ⌊x⌋ % 2 = 0 then ⌊x⌋ else ⌊x⌋ + 1) else round x

/-- Python `round(x, 2)` on the rationals. -/
def round2 (x : ℚ) : ℚ := (bankersRound (x * 100) : ℚ) / 100

/-- `PortfolioOptimizer.diversification_score` on the list of weight values
(`list(weights.values())`): `round(100 * (1 - sum |w - 1/n| / 2), 2)`. -/
def diversification_score (weight_values : List ℚ) : ℚ :=
  let ideal_weight : ℚ := 1 / (weight_values.length : ℚ)
  let deviations := weight_values.map fun w => |w - ideal_weight|
  round2 (100 * (1 - deviations.sum / 2))

/-- Fold-based minimum of a list (`DataFrame.min()` over the column means). -/
def listMin : List ℚ → ℚ
  | [] => 0
  | x :: xs => xs.foldl min x

/-- Fold-based maximum of a list (`DataFrame.max()` over the column means). -/
def listMax : List ℚ → ℚ
  | [] => 0
  | x :: xs => xs.foldl max x

/-- Column means of the row-major return matrix: `returns.mean()`. -/
def col_means (R : List (List ℚ)) : List ℚ :=
  R.transpose.map fun c => c.sum / (c.length : ℚ)

/-- `returns.mean().min() * 252` in `efficient_frontier`. -/
def min_ret (R : List (List ℚ)) : ℚ := listMin (col_means R) * 252

/-- `returns.mean().max() * 252` in `efficient_frontier`. -/
def max_ret (R : List (List ℚ)) : ℚ := listMax (col_means R) * 252

/-- `np.linspace(a, b, N)`: `N` evenly spaced values from `a` to `b` inclusive.
For `N = 1` the step factor is multiplied by `0`, so the list is `[a]`, and for
`N = 0` it is empty, as in numpy. -/
def linspace (a b : ℚ) (N : ℕ) : List ℚ :=
  (List.range N).map fun (i : ℕ) => a + (i : ℚ) * ((b - a) / ((N : ℚ) - 1))

/-- The target returns swept by `efficient_frontier`. -/
def target_returns (R : List (List ℚ)) (N : ℕ) : List ℚ :=
  linspace (min_ret R) (max_ret R) N

/-- `PortfolioOptimizer.efficient_frontier`, with the per-target constrained
solve (external `scipy.optimize.minimize`) abstracted as `solve`: a successful
solve at target `t` yields `some (weights, ret, vol)`, a failed one `none` and
the point is skipped.  Each surviving point is paired with its target. -/
def efficient_frontier (solve : ℚ → Option (List ℚ × ℚ × ℚ))
    (R : List (List ℚ)) (N : ℕ) : List (ℚ × (List ℚ × ℚ × ℚ)) :=
  (target_returns R N).filterMap fun t => (solve t).map fun p => (t, p)

/-- Concrete return matrix used to instantiate the frontier theorem. -/
def frontier_demo_R : List (List ℚ) :=
  [[1/100, 3/100], [2/100, 1/100]]

/-- Concrete solver outcome used to instantiate the frontier theorem: targets
above 4 are infeasible and fail. -/
def frontier_demo_solve : ℚ → Option (List ℚ × ℚ × ℚ) :=
  fun t => if t ≤ 9/2 then some ([1, 0], t, 1/10) else none

/-- C1: `calculate_portfolio_metrics` returns annualized return `252 * (μ · w)`
and annualized volatility `sqrt(252 * wᵀ Σ w)`, and `calculate_sharpe_ratio`
returns `(annualized_return - rf) / annualized_volatility`; all are plain
(hence deterministic, pure) functions of `(w, R, rf)`. -/
theorem C1_metrics_formulas {T n : ℕ} (w : Fin n → ℝ) (R : Fin T → Fin n → ℝ)
    (rf : ℝ) :
    (calculate_portfolio_metrics w R).1 = 252 * (∑ j, colMean R j * w j) ∧
    (calculate_portfolio_metrics w R).2 =
      Real.sqrt (252 * ∑ i, ∑ j, w i * (sampleCov R i j * w j)) ∧
    calculate_sharpe_ratio rf w R =
      (252 * (∑ j, colMean R j * w j) - rf) /
        Real.sqrt (252 * ∑ i, ∑ j, w i * (sampleCov R i j * w j)) := by
  have h1 : (calculate_portfolio_metrics w R).1 =
      252 * (∑ j, colMean R j * w j) := by
    simp [calculate_portfolio_metrics, mul_comm]
  have h2 : (calculate_portfolio_metrics w R).2 =
      Real.sqrt (252 * ∑ i, ∑ j, w i * (sampleCov R i j * w j)) := by
    show Real.sqrt _ = Real.sqrt _
    congr 1
    rw [Finset.mul_sum]
    refine Finset.sum_congr rfl fun i _ => ?_
    rw [Finset.mul_sum, Finset.mul_sum]
    refine Finset.sum_congr rfl fun j _ => ?_
    ring
  exact ⟨h1, h2, by rw [calculate_sharpe_ratio, h1, h2]⟩

/-- C5 (code bug): on a single asset with constant returns (matrix of two
identical rows, the degenerate input of the spec's scenario), the annualized
volatility computed by `calculate_portfolio_metrics` is `0`, and
`calculate_sharpe_ratio` still forms the quotient with that zero denominator —
in Python this is an unguarded float division producing `inf`/`nan`, not an
`UndefinedSharpeError`; moreover the only failure message either optimizer can
ever return is the fixed string `"Optimization failed"`, which does not cite
zero volatility. -/
theorem C5_zero_volatility_unguarded (rf : ℝ) :
    (calculate_portfolio_metrics (fun _ => 1)
        (fun (_ : Fin 2) (_ : Fin 1) => 1 / 100)).2 = 0 ∧
    calculate_sharpe_ratio rf (fun _ => 1)
        (fun (_ : Fin 2) (_ : Fin 1) => 1 / 100) =
      ((calculate_portfolio_metrics (fun _ => 1)
          (fun (_ : Fin 2) (_ : Fin 1) => 1 / 100)).1 - rf) / 0 ∧
    (optimize_sharpe SolverOutcome.failure
        (fun (_ : Fin 2) (_ : Fin 1) => 1 / 100) rf).message =
      "Optimization failed" := by
  have h2 : (calculate_portfolio_metrics (fun _ => 1)
      (fun (_ : Fin 2) (_ : Fin 1) => 1 / 100)).2 = 0 := by
    have : (calculate_portfolio_metrics (fun _ => 1)
        (fun (_ : Fin 2) (_ : Fin 1) => 1 / 100)).2 = Real.sqrt 0 := by
      unfold calculate_portfolio_metrics sampleCov colMean
      norm_num [Fin.sum_univ_two, Fin.sum_univ_one]
    rw [this, Real.sqrt_zero]
  refine ⟨h2, ?_, rfl⟩
  rw [calculate_sharpe_ratio, h2]

/-- C6: when the solver reports non-convergence, both `optimize_sharpe` and
`optimize_min_volatility` return (rather than raise — both embeddings are
total functions) a result with `success = false` carrying the human-readable
failure message `"Optimization failed"`. -/
theorem C6_failure_is_returned_not_raised {T n : ℕ} (R : Fin T → Fin n → ℝ)
    (rf : ℝ) :
    (optimize_sharpe SolverOutcome.failure R rf).success = false ∧
    (optimize_sharpe SolverOutcome.failure R rf).message =
      "Optimization failed" ∧
    (optimize_sharpe SolverOutcome.failure R rf).message ≠ "" ∧
    (optimize_min_volatility SolverOutcome.failure R rf).success = false ∧
    (optimize_min_volatility SolverOutcome.failure R rf).message =
      "Optimization failed" := by
  refine ⟨rfl, rfl, ?_, rfl, rfl⟩
  show ("Optimization failed" : String) ≠ ""
  decide

/-- C8: on the per-period portfolio returns `[-0.04, -0.01, 0, 0.02, 0.03]`
(single asset, unit weight), the 5th linear-interpolation percentile is
`-0.034` and `calculate_var` at confidence `0.95` and portfolio value `100000`
returns exactly `3400`. -/
theorem C8_var_concrete_scenario :
    percentile (portfolio_returns
        [[-(4:ℚ)/100], [-(1:ℚ)/100], [0], [(2:ℚ)/100], [(3:ℚ)/100]] [1]) 5 =
      -(34/1000) ∧
    calculate_var [[-(4:ℚ)/100], [-(1:ℚ)/100], [0], [(2:ℚ)/100], [(3:ℚ)/100]]
        [1] (95/100) 100000 = 3400 := by
  constructor
  · norm_num [percentile, portfolio_returns, interpAt,
      List.insertionSort, List.orderedInsert, List.getD, Int.floor_eq_iff]
  · norm_num [calculate_var, percentile, portfolio_returns, interpAt,
      List.insertionSort, List.orderedInsert, List.getD, Int.floor_eq_iff,
      abs_eq_max_neg, max_def]

/-- C9 (code bug): `calculate_returns` on a single price row (fewer than 2
rows) succeeds and returns the empty return matrix — `pct_change().dropna()`
raises nothing — instead of failing with `InsufficientDataError`. -/
theorem C9_single_row_returns_empty :
    calculate_returns [[(100:ℚ)]] = [] := rfl

/-- C10: `calculate_var` is positively homogeneous in the portfolio value —
for `0 ≤ V` it equals `V` times the VaR at portfolio value `1` — and its
result is always nonnegative. -/
theorem C10_var_homogeneous (R : List (List ℚ)) (w : List ℚ) (c V : ℚ) :
    (0 ≤ V → calculate_var R w c V = V * calculate_var R w c 1) ∧
    0 ≤ calculate_var R w c V := by
  constructor
  · intro hV
    unfold calculate_var
    rw [mul_one, abs_mul, abs_of_nonneg hV, mul_comm]
  · exact abs_nonneg _

/-- C10 witness: the homogeneity theorem instantiated at a concrete matrix,
weight vector and portfolio value `100000`. -/
theorem C10_var_homogeneous_witness :
    calculate_var [[(1:ℚ)/100], [(5:ℚ)/100]] [1] (95/100) 100000 =
      100000 * calculate_var [[(1:ℚ)/100], [(5:ℚ)/100]] [1] (95/100) 1 ∧
    0 ≤ calculate_var [[(1:ℚ)/100], [(5:ℚ)/100]] [1] (95/100) 100000 :=
  ⟨(C10_var_homogeneous [[(1:ℚ)/100], [(5:ℚ)/100]] [1] (95/100) 100000).1
      (by norm_num),
   (C10_var_homogeneous [[(1:ℚ)/100], [(5:ℚ)/100]] [1] (95/100) 100000).2⟩

/-- C3 counterexample: with per-period portfolio returns `[0.01, 0.05]` (all
gains), unit weight and portfolio value `100`, `calculate_var` at confidence
`0.99` returns `1.04` while at `0.95` it returns `1.2`: the absolute value in
the implementation flips the percentile ordering, so `var_99 ≥ var_95` fails. -/
theorem C3_counterexample_var99_lt_var95 :
    ¬ (calculate_var [[(1:ℚ)/100], [(5:ℚ)/100]] [1] (99/100) 100 ≥
        calculate_var [[(1:ℚ)/100], [(5:ℚ)/100]] [1] (95/100) 100) := by
  norm_num [calculate_var, percentile, portfolio_returns, interpAt,
    List.insertionSort, List.orderedInsert, List.getD, Int.floor_eq_iff,
    abs_eq_max_neg, max_def]

/-- C4 counterexample: for three assets fully concentrated in the first,
`diversification_score` returns `33.33` (the source rounds to two decimals),
which is not the claimed exact value `100/3`. -/
theorem C4_counterexample_rounding :
    ¬ (diversification_score [1, 0, 0] = 100/3) := by
  norm_num [diversification_score, round2, bankersRound, Int.floor_eq_iff,
    round_eq, abs_eq_max_neg, max_def, Int.fract]

/-- C2: if the min-volatility solve converges to `w` — which, the objective
`wᵀΣw` being convex over the feasible simplex, the spec takes to be a global
minimizer — then the volatility of the weights returned by
`optimize_min_volatility` is at most the volatility of the equal-weight
portfolio (`w_i = 1/n`), the equal-weight vector being feasible. -/
theorem C2_min_vol_le_equal_weight {T n : ℕ} (R : Fin T → Fin n → ℝ)
    (rf : ℝ) (w : Fin n → ℝ) (hn : 1 ≤ n)
    (hmin : ∀ v : Fin n → ℝ, feasible v →
      portfolio_volatility R w ≤ portfolio_volatility R v) :
    portfolio_volatility R
        ((optimize_min_volatility (SolverOutcome.success w) R rf).weights) ≤
      portfolio_volatility R (equal_weights n) := by
  have hnpos : (0:ℝ) < (n:ℝ) := by exact_mod_cast Nat.lt_of_lt_of_le Nat.zero_lt_one hn
  have hn1 : (1:ℝ) ≤ (n:ℝ) := by exact_mod_cast hn
  have hfeas : feasible (equal_weights n) := by
    refine ⟨?_, fun i => ⟨by show (0:ℝ) ≤ 1 / (n:ℝ); positivity, ?_⟩⟩
    · rw [show (∑ i : Fin n, equal_weights n i) = (n:ℝ) * (1 / (n:ℝ)) by
        simp [equal_weights, Finset.sum_const, Finset.card_univ, nsmul_eq_mul]]
      field_simp
    · show 1 / (n:ℝ) ≤ 1
      rw [div_le_one hnpos]
      exact hn1
  exact hmin _ hfeas

/-- C2 witness: a single riskless asset; the only feasible vector is `(1)`,
which is both the solver's point and the equal-weight vector. -/
theorem C2_min_vol_le_equal_weight_witness :
    portfolio_volatility (fun (_ : Fin 1) (_ : Fin 1) => (0:ℝ))
        ((optimize_min_volatility
            (SolverOutcome.success fun (_ : Fin 1) => (1:ℝ))
            (fun (_ : Fin 1) (_ : Fin 1) => (0:ℝ)) 0).weights) ≤
      portfolio_volatility (fun (_ : Fin 1) (_ : Fin 1) => (0:ℝ))
        (equal_weights 1) := by
  apply C2_min_vol_le_equal_weight (fun _ _ => 0) 0 (fun _ => 1) (le_refl 1)
  intro v hv
  have hv1 : v 0 = 1 := by
    have h := hv.1
    rwa [Fin.sum_univ_one] at h
  have hveq : v = fun _ => (1:ℝ) := funext fun i => by
    rw [Subsingleton.elim i 0, hv1]
  rw [hveq]

/-- C4 (amended): `diversification_score` of the equal-weight vector over
`n ≥ 1` assets is exactly `100`; of the fully concentrated vector it is
`100/n` rounded to two decimals (hence exactly `100/n` only when `100/n` has
at most two decimal places); in particular `[1, 0] ↦ 50` and
`[0.5, 0.5] ↦ 100`. -/
theorem C4_diversification_amended (n : ℕ) (hn : 1 ≤ n) :
    diversification_score (List.replicate n (1 / (n:ℚ))) = 100 ∧
    diversification_score ((1:ℚ) :: List.replicate (n - 1) 0) =
      round2 (100 / (n:ℚ)) ∧
    diversification_score [(1:ℚ), 0] = 50 ∧
    diversification_score [(1:ℚ)/2, 1/2] = 100 := by
  have hnpos : (0:ℚ) < (n:ℚ) := by exact_mod_cast Nat.lt_of_lt_of_le Nat.zero_lt_one hn
  have hn1 : (1:ℚ) ≤ (n:ℚ) := by exact_mod_cast hn
  refine ⟨?_, ?_, ?_, ?_⟩
  · simp only [diversification_score, List.length_replicate, List.map_replicate,
      sub_self, abs_zero, List.sum_replicate, smul_zero]
    norm_num [round2, bankersRound, Int.floor_eq_iff, round_eq]
  · simp only [diversification_score, List.length_cons, List.length_replicate]
    rw [show n - 1 + 1 = n from by omega]
    simp only [List.map_cons, List.map_replicate, List.sum_cons,
      List.sum_replicate, nsmul_eq_mul]
    rw [show |(1:ℚ) - 1 / (n:ℚ)| = 1 - 1 / (n:ℚ) from
        abs_of_nonneg (by rw [sub_nonneg, div_le_one hnpos]; exact hn1),
      show |(0:ℚ) - 1 / (n:ℚ)| = 1 / (n:ℚ) from by
        rw [zero_sub, abs_neg, abs_of_nonneg (by positivity)],
      Nat.cast_sub hn]
    congr 1
    field_simp
    ring
  · norm_num [diversification_score, round2, bankersRound, Int.floor_eq_iff,
      round_eq, abs_eq_max_neg, max_def, Int.fract]
  · norm_num [diversification_score, round2, bankersRound, Int.floor_eq_iff,
      round_eq, abs_eq_max_neg, max_def, Int.fract]

/-- C4 witness: the amended statement instantiated at `n = 3`, where the
concentrated score is `round2 (100/3) = 33.33`. -/
theorem C4_diversification_amended_witness :
    diversification_score (List.replicate 3 (1 / (3:ℚ))) = 100 ∧
    diversification_score ((1:ℚ) :: List.replicate (3 - 1) 0) =
      round2 (100 / (3:ℚ)) ∧
    diversification_score [(1:ℚ), 0] = 50 ∧
    diversification_score [(1:ℚ)/2, 1/2] = 100 :=
  C4_diversification_amended 3 (by norm_num)

/-- Helper: in a `≤`-sorted list, `getD` with default `0` is monotone on
in-range indices. -/
theorem sorted_getD_mono {s : List ℚ} (hs : List.Sorted (· ≤ ·) s)
    {i j : ℕ} (hij : i ≤ j) (hj : j < s.length) :
    s.getD i 0 ≤ s.getD j 0 := by
  rcases Nat.lt_or_ge i j with h | h
  · rw [List.getD_eq_getElem s 0 (Nat.lt_trans h hj), List.getD_eq_getElem s 0 hj]
    exact List.pairwise_iff_getElem.mp hs i j (Nat.lt_trans h hj) hj h
  · have heq : i = j := Nat.le_antisymm hij h
    rw [heq]

/-- Helper: in a `≤`-sorted list the interpolation upper sample (with the
lower sample as out-of-range default) is at least the lower sample. -/
theorem sorted_lo_le_hi {s : List ℚ} (hs : List.Sorted (· ≤ ·) s)
    {i : ℕ} (hi : i < s.length) :
    s.getD i 0 ≤ s.getD (i + 1) (s.getD i 0) := by
  rcases Nat.lt_or_ge (i + 1) s.length with h | h
  · rw [List.getD_eq_getElem s _ h, List.getD_eq_getElem s 0 hi]
    exact List.pairwise_iff_getElem.mp hs i (i + 1) hi h (Nat.lt_succ_self i)
  · rw [List.getD_eq_default s _ h]

/-- Helper: linear interpolation between order statistics of a sorted list is
monotone in the fractional position. -/
theorem interpAt_mono {s : List ℚ} (hs : List.Sorted (· ≤ ·) s)
    {h1 h2 : ℚ} (h0 : 0 ≤ h1) (h12 : h1 ≤ h2)
    (hub : h2 ≤ (s.length : ℚ) - 1) :
    interpAt s h1 ≤ interpAt s h2 := by
  have hf1 : (0:ℤ) ≤ ⌊h1⌋ := Int.floor_nonneg.mpr h0
  have hf2 : (0:ℤ) ≤ ⌊h2⌋ := le_trans hf1 (Int.floor_le_floor h12)
  have hc1 : (((⌊h1⌋).toNat : ℚ)) = ((⌊h1⌋ : ℤ) : ℚ) := by
    rw [show (((⌊h1⌋).toNat : ℚ)) = (((⌊h1⌋).toNat : ℤ) : ℚ) from by push_cast; ring,
      Int.toNat_of_nonneg hf1]
  have hc2 : (((⌊h2⌋).toNat : ℚ)) = ((⌊h2⌋ : ℤ) : ℚ) := by
    rw [show (((⌊h2⌋).toNat : ℚ)) = (((⌊h2⌋).toNat : ℤ) : ℚ) from by push_cast; ring,
      Int.toNat_of_nonneg hf2]
  have hlb1 : (((⌊h1⌋).toNat : ℚ)) ≤ h1 := by rw [hc1]; exact Int.floor_le h1
  have hub1 : h1 < (((⌊h1⌋).toNat : ℚ)) + 1 := by rw [hc1]; exact Int.lt_floor_add_one h1
  have hlb2 : (((⌊h2⌋).toNat : ℚ)) ≤ h2 := by rw [hc2]; exact Int.floor_le h2
  have hi12 : (⌊h1⌋).toNat ≤ (⌊h2⌋).toNat := Int.toNat_le_toNat (Int.floor_le_floor h12)
  have hn1 : 1 ≤ s.length := by
    by_contra hkn
    have h0s : s.length = 0 := by omega
    rw [h0s] at hub
    norm_num at hub
    linarith
  have hi2n : (⌊h2⌋).toNat < s.length := by
    have hfl : ⌊h2⌋ ≤ (s.length : ℤ) - 1 := by
      have hcast : ((s.length : ℚ)) - 1 = (((s.length : ℤ) - 1 : ℤ) : ℚ) := by push_cast; ring
      rw [hcast] at hub
      have hff := Int.floor_le_floor hub
      rwa [Int.floor_intCast] at hff
    omega
  have hi1n : (⌊h1⌋).toNat < s.length := Nat.lt_of_le_of_lt hi12 hi2n
  have hl1 : s.getD (⌊h1⌋).toNat 0 ≤ s.getD ((⌊h1⌋).toNat + 1) (s.getD (⌊h1⌋).toNat 0) :=
    sorted_lo_le_hi hs hi1n
  have hl2 : s.getD (⌊h2⌋).toNat 0 ≤ s.getD ((⌊h2⌋).toNat + 1) (s.getD (⌊h2⌋).toNat 0) :=
    sorted_lo_le_hi hs hi2n
  simp only [interpAt]
  rcases Nat.lt_or_ge (⌊h1⌋).toNat (⌊h2⌋).toNat with hlt | hge
  · have hi1succ : (⌊h1⌋).toNat + 1 < s.length := Nat.lt_of_le_of_lt hlt hi2n
    have e1 : s.getD ((⌊h1⌋).toNat + 1) (s.getD (⌊h1⌋).toNat 0) = s.getD ((⌊h1⌋).toNat + 1) 0 := by
      rw [List.getD_eq_getElem s _ hi1succ, List.getD_eq_getElem s 0 hi1succ]
    have step1 : s.getD (⌊h1⌋).toNat 0 +
        (h1 - ((⌊h1⌋).toNat : ℚ)) *
          (s.getD ((⌊h1⌋).toNat + 1) (s.getD (⌊h1⌋).toNat 0) - s.getD (⌊h1⌋).toNat 0) ≤
        s.getD ((⌊h1⌋).toNat + 1) 0 := by
      have hprod : (h1 - ((⌊h1⌋).toNat : ℚ)) *
          (s.getD ((⌊h1⌋).toNat + 1) (s.getD (⌊h1⌋).toNat 0) - s.getD (⌊h1⌋).toNat 0) ≤
          1 * (s.getD ((⌊h1⌋).toNat + 1) (s.getD (⌊h1⌋).toNat 0) - s.getD (⌊h1⌋).toNat 0) :=
        mul_le_mul_of_nonneg_right (by linarith) (by linarith)
      rw [← e1]
      linarith
    have step2 : s.getD ((⌊h1⌋).toNat + 1) 0 ≤ s.getD (⌊h2⌋).toNat 0 :=
      sorted_getD_mono hs hlt hi2n
    have step3 : s.getD (⌊h2⌋).toNat 0 ≤ s.getD (⌊h2⌋).toNat 0 +
        (h2 - ((⌊h2⌋).toNat : ℚ)) *
          (s.getD ((⌊h2⌋).toNat + 1) (s.getD (⌊h2⌋).toNat 0) - s.getD (⌊h2⌋).toNat 0) := by
      have hprod : 0 ≤ (h2 - ((⌊h2⌋).toNat : ℚ)) *
          (s.getD ((⌊h2⌋).toNat + 1) (s.getD (⌊h2⌋).toNat 0) - s.getD (⌊h2⌋).toNat 0) :=
        mul_nonneg (by linarith) (by linarith)
      linarith
    linarith
  · have heq : (⌊h1⌋).toNat = (⌊h2⌋).toNat := Nat.le_antisymm hi12 hge
    rw [heq]
    have hprod : (h1 - ((⌊h2⌋).toNat : ℚ)) *
        (s.getD ((⌊h2⌋).toNat + 1) (s.getD (⌊h2⌋).toNat 0) - s.getD (⌊h2⌋).toNat 0) ≤
        (h2 - ((⌊h2⌋).toNat : ℚ)) *
          (s.getD ((⌊h2⌋).toNat + 1) (s.getD (⌊h2⌋).toNat 0) - s.getD (⌊h2⌋).toNat 0) :=
      mul_le_mul_of_nonneg_right (by linarith) (by linarith)
    linarith

/-- Helper: `percentile` is monotone in `q` on `[0, 100]` for a nonempty
sample. -/
theorem percentile_mono (xs : List ℚ) {q1 q2 : ℚ} (h0 : 0 ≤ q1) (h12 : q1 ≤ q2)
    (h100 : q2 ≤ 100) (hne : xs ≠ []) :
    percentile xs q1 ≤ percentile xs q2 := by
  have hlen : 0 < xs.length := List.length_pos.mpr hne
  have hlq : (1:ℚ) ≤ (xs.length : ℚ) := by exact_mod_cast hlen
  apply interpAt_mono (List.sorted_insertionSort _ xs)
  · exact mul_nonneg (div_nonneg h0 (by norm_num)) (by linarith)
  · exact mul_le_mul_of_nonneg_right (by linarith) (by linarith)
  · rw [List.length_insertionSort]
    have hq1 : q2 / 100 ≤ 1 := by linarith
    have hnn : (0:ℚ) ≤ (xs.length : ℚ) - 1 := by linarith
    calc q2 / 100 * ((xs.length : ℚ) - 1)
        ≤ 1 * ((xs.length : ℚ) - 1) := mul_le_mul_of_nonneg_right hq1 hnn
      _ = (xs.length : ℚ) - 1 := one_mul _

/-- C3 (amended): whenever the 5th percentile of the per-period portfolio
return series is nonpositive (a loss, the intended regime of VaR),
`calculate_var` at confidence `0.99` is at least `calculate_var` at `0.95`,
for every portfolio value.  (Unconditionally the claim is false: the absolute
value flips the ordering when the percentiles are positive.) -/
theorem C3_var_monotone_amended (R : List (List ℚ)) (w : List ℚ) (V : ℚ)
    (hp : percentile (portfolio_returns R w) 5 ≤ 0) :
    calculate_var R w (99/100) V ≥ calculate_var R w (95/100) V := by
  unfold calculate_var
  rw [show ((1:ℚ) - 99/100) * 100 = 1 from by norm_num,
      show ((1:ℚ) - 95/100) * 100 = 5 from by norm_num]
  by_cases hne : portfolio_returns R w = []
  · rw [hne]
    have h1 : percentile ([] : List ℚ) 1 = 0 := by
      norm_num [percentile, interpAt, List.getD_nil]
    have h5 : percentile ([] : List ℚ) 5 = 0 := by
      norm_num [percentile, interpAt, List.getD_nil]
    rw [h1, h5]
  · have h15 : percentile (portfolio_returns R w) 1 ≤
        percentile (portfolio_returns R w) 5 :=
      percentile_mono _ (by norm_num) (by norm_num) (by norm_num) hne
    have h10 : percentile (portfolio_returns R w) 1 ≤ 0 := le_trans h15 hp
    rw [ge_iff_le, abs_mul, abs_mul]
    apply mul_le_mul_of_nonneg_right ?_ (abs_nonneg V)
    rw [abs_of_nonpos hp, abs_of_nonpos h10]
    linarith

/-- C3 witness: the amended theorem applied to the spec's own VaR scenario,
whose 5th percentile `-0.034` is nonpositive. -/
theorem C3_var_monotone_amended_witness :
    percentile (portfolio_returns
        [[-(4:ℚ)/100], [-(1:ℚ)/100], [0], [(2:ℚ)/100], [(3:ℚ)/100]] [1]) 5 ≤ 0 ∧
    calculate_var [[-(4:ℚ)/100], [-(1:ℚ)/100], [0], [(2:ℚ)/100], [(3:ℚ)/100]]
        [1] (99/100) 100000 ≥
      calculate_var [[-(4:ℚ)/100], [-(1:ℚ)/100], [0], [(2:ℚ)/100], [(3:ℚ)/100]]
        [1] (95/100) 100000 :=
  ⟨by norm_num [percentile, portfolio_returns, interpAt, List.insertionSort,
      List.orderedInsert, List.getD, Int.floor_eq_iff],
   C3_var_monotone_amended _ _ _
     (by norm_num [percentile, portfolio_returns, interpAt, List.insertionSort,
        List.orderedInsert, List.getD, Int.floor_eq_iff])⟩

/-- Helper: a left fold with `min` never exceeds its initial value. -/
theorem foldl_min_le (l : List ℚ) (a : ℚ) : l.foldl min a ≤ a := by
  induction l generalizing a with
  | nil => exact le_refl a
  | cons y ys ih => exact le_trans (ih (min a y)) (min_le_left a y)

/-- Helper: a left fold with `max` is at least its initial value. -/
theorem le_foldl_max (l : List ℚ) (a : ℚ) : a ≤ l.foldl max a := by
  induction l generalizing a with
  | nil => exact le_refl a
  | cons y ys ih => exact le_trans (le_max_left a y) (ih (max a y))

/-- Helper: the minimum of a list never exceeds its maximum. -/
theorem listMin_le_listMax : ∀ l : List ℚ, listMin l ≤ listMax l
  | [] => le_refl 0
  | x :: xs => le_trans (foldl_min_le xs x) (le_foldl_max xs x)

/-- Helper: `linspace` always produces exactly `N` values. -/
theorem length_linspace (a b : ℚ) (N : ℕ) : (linspace a b N).length = N := by
  simp only [linspace, List.length_map, List.length_range]

/-- Helper: closed form of the `i`-th `linspace` value. -/
theorem linspace_getD (a b : ℚ) {N i : ℕ} (hi : i < N) :
    (linspace a b N).getD i 0 = a + (i : ℚ) * ((b - a) / ((N : ℚ) - 1)) := by
  unfold linspace
  rw [List.getD_eq_getElem _ 0
    (by simp only [List.length_map, List.length_range]; exact hi)]
  simp only [List.getElem_map, List.getElem_range]

/-- Helper: for `a ≤ b` the `linspace` values are nondecreasing. -/
theorem linspace_sorted {a b : ℚ} (hab : a ≤ b) (N : ℕ) :
    List.Sorted (· ≤ ·) (linspace a b N) := by
  show List.Pairwise (· ≤ ·) _
  refine List.pairwise_iff_getElem.mpr fun i j hi hj hij => ?_
  simp only [linspace, List.length_map, List.length_range] at hi hj
  simp only [linspace, List.getElem_map, List.getElem_range]
  have hN2 : 2 ≤ N := by omega
  have hden : (1:ℚ) ≤ (N : ℚ) - 1 := by
    have : (2:ℚ) ≤ (N : ℚ) := by exact_mod_cast hN2
    linarith
  have hs : (0:ℚ) ≤ (b - a) / ((N : ℚ) - 1) := div_nonneg (by linarith) (by linarith)
  have hij' : (i : ℚ) ≤ (j : ℚ) := by exact_mod_cast Nat.le_of_lt hij
  have hmul := mul_le_mul_of_nonneg_right hij' hs
  linarith

/-- Helper: the targets of the surviving frontier points are exactly the
targets at which the solve succeeded, in sweep order. -/
theorem map_fst_efficient_frontier (solve : ℚ → Option (List ℚ × ℚ × ℚ))
    (l : List ℚ) :
    (l.filterMap fun t => (solve t).map fun p => (t, p)).map Prod.fst =
      l.filter fun t => (solve t).isSome := by
  induction l with
  | nil => rfl
  | cons x xs ih =>
    cases hx : solve x with
    | none => simp [List.filterMap_cons, List.filter_cons, hx, ih]
    | some p => simp [List.filterMap_cons, List.filter_cons, hx, ih]

/-- C7: the frontier sweep uses exactly `N` evenly spaced targets (constant
step `(max-min)/(N-1)`) from the minimum to the maximum single-asset
annualized mean return inclusive; a solve is attempted per target, failed
targets are omitted, so the result has length `≤ N` and its surviving points
are in ascending order of target return. -/
theorem C7_frontier_structure (R : List (List ℚ)) (N : ℕ)
    (solve : ℚ → Option (List ℚ × ℚ × ℚ)) (hN : 2 ≤ N) :
    (target_returns R N).length = N ∧
    (target_returns R N).getD 0 0 = min_ret R ∧
    (target_returns R N).getD (N - 1) 0 = max_ret R ∧
    (∀ i, i + 1 < N →
      (target_returns R N).getD (i + 1) 0 - (target_returns R N).getD i 0 =
        (max_ret R - min_ret R) / ((N : ℚ) - 1)) ∧
    (efficient_frontier solve R N).length ≤ N ∧
    List.Sorted (· ≤ ·) ((efficient_frontier solve R N).map Prod.fst) := by
  have hmm : min_ret R ≤ max_ret R :=
    mul_le_mul_of_nonneg_right (listMin_le_listMax _) (by norm_num)
  have hN2 : (2:ℚ) ≤ (N:ℚ) := by exact_mod_cast hN
  have hne : ((N:ℚ) - 1) ≠ 0 := by
    intro h0
    rw [sub_eq_zero] at h0
    linarith
  refine ⟨length_linspace _ _ _, ?_, ?_, ?_, ?_, ?_⟩
  · rw [target_returns, linspace_getD _ _ (by omega : 0 < N)]
    norm_num
  · rw [target_returns, linspace_getD _ _ (by omega : N - 1 < N),
      Nat.cast_sub (by omega : 1 ≤ N)]
    field_simp
  · intro i hi
    rw [target_returns, linspace_getD _ _ hi, linspace_getD _ _ (by omega : i < N)]
    push_cast
    ring
  · rw [efficient_frontier]
    calc ((target_returns R N).filterMap
          fun t => (solve t).map fun p => (t, p)).length
        ≤ (target_returns R N).length := List.length_filterMap_le _ _
      _ = N := length_linspace _ _ _
  · rw [efficient_frontier, target_returns, map_fst_efficient_frontier]
    exact (linspace_sorted hmm N).filter _

/-- C7 witness: the frontier theorem instantiated at a concrete two-asset
return matrix, `N = 3`, and a solver that fails on the largest target. -/
theorem C7_frontier_structure_witness :
    (target_returns frontier_demo_R 3).length = 3 ∧
    (target_returns frontier_demo_R 3).getD 0 0 = min_ret frontier_demo_R ∧
    (target_returns frontier_demo_R 3).getD (3 - 1) 0 =
      max_ret frontier_demo_R ∧
    (∀ i, i + 1 < 3 →
      (target_returns frontier_demo_R 3).getD (i + 1) 0 -
          (target_returns frontier_demo_R 3).getD i 0 =
        (max_ret frontier_demo_R - min_ret frontier_demo_R) / ((3 : ℚ) - 1)) ∧
    (efficient_frontier frontier_demo_solve frontier_demo_R 3).length ≤ 3 ∧
    List.Sorted (· ≤ ·)
      ((efficient_frontier frontier_demo_solve frontier_demo_R 3).map
        Prod.fst) :=
  C7_frontier_structure frontier_demo_R 3 frontier_demo_solve (by norm_num)
